import Mathlib

/-!
# Klarity Sync plugin — a verified model

Shallow embedding of the Klarity Sync Obsidian plugin (`src/main.ts`):
the template renderer (`formatNote`), the filename sanitizer
(`sanitizeFilename`), the remote client (`fetchNotes`), the vault writer
(`createOrUpdateNote`) and the sync orchestrator (`syncNotes`), together
with theorems settling the specification claims about them.

Strings are modelled as Lean `String`s (lists of characters); the
JavaScript global-regex `String.prototype.replace` with a literal pattern
is modelled by a leftmost, non-overlapping, single-pass replacement
function on character lists.  All functions are given fuel-free public
definitions backed by fuel-driven structural workers so that every
definition evaluates inside the kernel.
-/

namespace KlaritySync

/-! ## Character-list machinery -/

/-- Structural test that `p` occurs at the very start of `s`. -/
def isPre : List Char → List Char → Bool
  | [], _ => true
  | _ :: _, [] => false
  | a :: p, c :: t => a == c && isPre p t

/-- Occurrence test: does `p` occur as a contiguous run somewhere inside `s`?
This models JavaScript `String.prototype.includes`. -/
def occursIn (p : List Char) : List Char → Bool
  | [] => isPre p []
  | c :: t => isPre p (c :: t) || occursIn p t

/-- Fuel-driven worker for leftmost global replacement of the pattern `p` by
the value `v`.  When the pattern matches at the current position the match is
consumed (one character by the pattern match of the worker, the remaining
`p.length - 1` by an explicit `drop`) and scanning resumes after it, exactly
as JavaScript's global regex replace does for a literal pattern. -/
def repF (p v : List Char) : Nat → List Char → List Char
  | 0, s => s
  | _ + 1, [] => []
  | f + 1, c :: t =>
    if isPre p (c :: t) then v ++ repF p v f (t.drop (p.length - 1))
    else c :: repF p v f t

/-- Plain leftmost global replacement of `p` by `v` inside `s`, inserting
`v` literally.  This is a proof device: `replaceList` below is the faithful
model of `s.replace(/p/g, v)` including the JavaScript dollar-escape
handling of the replacement string, and agrees with this plain version
whenever `v` contains no dollar sign (`replaceList_eq_plain`). -/
def replacePlain (p v s : List Char) : List Char := repF p v s.length s

/-- Expansion of the JavaScript replacement-string dollar escapes against
one match: `$$` inserts a dollar sign, `$&` the matched text `m`, a dollar
sign followed by a backquote the part `b` of the original string before the
match, a dollar sign followed by a straight quote the part `a` after it;
any other dollar sequence stays literal (the source's patterns have no
capture groups, so `$1`, `$2`, … are literal in JavaScript as well). -/
def expandDollar (b m a : List Char) : List Char → List Char
  | [] => []
  | [c] => [c]
  | c :: d :: rest =>
    if c = '$' then
      if d = '$' then '$' :: expandDollar b m a rest
      else if d = '&' then m ++ expandDollar b m a rest
      else if d = Char.ofNat 96 then b ++ expandDollar b m a rest
      else if d = Char.ofNat 39 then a ++ expandDollar b m a rest
      else '$' :: expandDollar b m a (d :: rest)
    else c :: expandDollar b m a (d :: rest)

/-- Fuel-driven worker for the faithful replacement: `b` accumulates the
original text before the current position, so that each match expands the
replacement string against the original text surrounding it, exactly as
JavaScript computes the dollar escapes per match. -/
def repFD (p v : List Char) : Nat → List Char → List Char → List Char
  | 0, _, s => s
  | _ + 1, _, [] => []
  | f + 1, b, c :: t =>
    if isPre p (c :: t) then
      expandDollar b p (t.drop (p.length - 1)) v ++
        repFD p v f (b ++ p) (t.drop (p.length - 1))
    else c :: repFD p v f (b ++ [c]) t

/-- Leftmost global replacement of `p` by `v` inside `s`: the model of the
JavaScript regex-global `String.prototype.replace` with a literal pattern,
including the dollar-escape semantics of the replacement string. -/
def replaceList (p v s : List Char) : List Char := repFD p v s.length [] s

/-! ## Simultaneous substitution (the specification's reading)

The specification asserts that the five template substitutions commute and
equal a single simultaneous substitution.  The following definitions follow
the spec's words — a single left-to-right scan that, at each position, tries
every token and replaces the (unique) one that matches — and are compared
with the source's sequential `formatNote` below. -/

/-- One token of a simultaneous substitution: a nonempty pattern
`hd :: tl` together with its replacement value. -/
structure Tok where
  hd : Char
  tl : List Char
  val : List Char
  deriving DecidableEq

/-- The pattern of a token. -/
def Tok.pat (tk : Tok) : List Char := tk.hd :: tk.tl

/-- First token of the list whose pattern matches at the start of `s`. -/
def findTok (s : List Char) : List Tok → Option Tok
  | [] => none
  | tk :: tks => if isPre tk.pat s then some tk else findTok s tks

/-- Fuel-driven worker for simultaneous substitution: a single left-to-right
scan; at each position the first matching token is replaced and its match
consumed, other characters are copied verbatim. -/
def simF (tks : List Tok) : Nat → List Char → List Char
  | 0, s => s
  | _ + 1, [] => []
  | f + 1, c :: t =>
    match findTok (c :: t) tks with
    | some tk => tk.val ++ simF tks f (t.drop tk.tl.length)
    | none => c :: simF tks f t

/-- Simultaneous substitution of a family of tokens in `s`, per the spec's
description of template rendering. -/
def simulSubst (tks : List Tok) (s : List Char) : List Char := simF tks s.length s

/-! ## Data model (`src/main.ts`, interfaces and defaults) -/

/-- A remote transcription record (`interface KlarityNote`). -/
structure KlarityNote where
  id : String
  title : String
  transcription : String
  createdAt : String
  updatedAt : String
  deriving DecidableEq

/-- The plugin's persisted configuration (`interface KlarityPluginSettings`). -/
structure KlarityPluginSettings where
  apiKey : String
  syncDirectory : String
  lastSyncTime : String
  autoSync : Bool
  syncTimeout : Nat
  noteTemplate : String
  deriving DecidableEq

/-- The default settings (`DEFAULT_SETTINGS` in `src/main.ts`); braces in the
template literal are written with `\x7b` / `\x7d` escapes. -/
def DEFAULT_SETTINGS : KlarityPluginSettings :=
  { apiKey := ""
    syncDirectory := "Klarity"
    lastSyncTime := ""
    autoSync := false
    syncTimeout := 5
    noteTemplate := "---\nid: \x7b\x7bid\x7d\x7d\ncreated: \x7b\x7bcreatedAt\x7d\x7d\nupdated: \x7b\x7bupdatedAt\x7d\x7d\n---\n\n# \x7b\x7btitle\x7d\x7d\n\n## Transcription\n\x7b\x7btranscription\x7d\x7d\n" }

/-! ## Filename sanitizer and template renderer -/

/-- The character class of `/[\\/:*?"<>|]/` in `sanitizeFilename`. -/
def invalidFileChar (c : Char) : Bool :=
  c == '\\' || c == '/' || c == ':' || c == '*' || c == '?' || c == '"' ||
    c == '<' || c == '>' || c == '|'

/-- The per-character action of the sanitizer's replace. -/
def sanChar (c : Char) : Char := if invalidFileChar c then '-' else c

/-- `sanitizeFilename` from `src/main.ts`: replace each character of the
class `[\\/:*?"<>|]` with a hyphen (a global single-character class replace
is a character-wise map). -/
def sanitizeFilename (filename : String) : String :=
  ⟨filename.data.map sanChar⟩

/-- JavaScript `s.replace(/p/g, v)` with a literal pattern, on `String`s,
dollar escapes included. -/
def jsReplace (s p v : String) : String := ⟨replaceList p.data v.data s.data⟩

/-- `formatNote` from `src/main.ts`: the template goes through five global
replacements, in source order `id`, `title`, `createdAt`, `updatedAt`,
`transcription`. -/
def formatNote (st : KlarityPluginSettings) (note : KlarityNote) : String :=
  jsReplace
    (jsReplace
      (jsReplace
        (jsReplace
          (jsReplace st.noteTemplate "\x7b\x7bid\x7d\x7d" note.id)
          "\x7b\x7btitle\x7d\x7d" note.title)
        "\x7b\x7bcreatedAt\x7d\x7d" note.createdAt)
      "\x7b\x7bupdatedAt\x7d\x7d" note.updatedAt)
    "\x7b\x7btranscription\x7d\x7d" note.transcription

/-! ## Remote client (`fetchNotes`) -/

/-- JavaScript whitespace test for the characters relevant to `trim()`. -/
def isWs (c : Char) : Bool :=
  c == ' ' || c == '\t' || c == '\n' || c == '\r'

/-- Strip leading whitespace. -/
def trimL : List Char → List Char
  | [] => []
  | c :: t => if isWs c then trimL t else c :: t

/-- JavaScript `String.prototype.trim`: strip whitespace from both ends. -/
def jsTrim (s : String) : String := ⟨(trimL (trimL s.data.reverse).reverse)⟩

/-- The response object produced by the host's `requestUrl`: an HTTP status
and the parsed JSON body.  `json = none` models a falsy body (`!result`),
`json = some none` a body whose `notes` field is not an array
(`!Array.isArray(result.notes)`), and `json = some (some notes)` a body
carrying an array of notes. -/
structure RUrlResponse where
  status : Nat
  json : Option (Option (List KlarityNote))
  deriving DecidableEq

/-- The local constant `const isCommented = true` inside `fetchNotes`. -/
def isCommented : Bool := true

/-- The classified failures thrown by `fetchNotes`, one constructor per
`throw new Error(...)` site of the classification path. -/
inductive FetchErr where
  | emptyKey
  | shortKey
  | auth
  | endpoint
  | server
  | unexpected (status : Nat)
  | malformed
  deriving DecidableEq

/-- The message string of each `throw new Error(...)` site. -/
def FetchErr.message : FetchErr → String
  | .emptyKey => "API key is empty. Please add your API key in settings."
  | .shortKey => "API key appears invalid. It should be at least 32 characters long."
  | .auth =>
    if isCommented then
      "Authentication required. Please uncomment the Authorization header in the plugin code."
    else
      "Authentication failed. Please verify your API key is correct in settings."
  | .endpoint => "API endpoint not found. The Klarity API may have changed or is temporarily unavailable."
  | .server => "Klarity server error. Please try again later or contact support if the issue persists."
  | .unexpected st => "Unexpected error (HTTP " ++ toString st ++ "). Please try again later."
  | .malformed => "Invalid response from Klarity API. Expected notes array."

/-- Configuration errors are the two pre-request validation failures. -/
def FetchErr.isConfig : FetchErr → Bool
  | .emptyKey => true
  | .shortKey => true
  | _ => false

/-- The status-code and body classification of `fetchNotes`
(`src/main.ts` lines 128–157), in source order, first match winning. -/
def classifyResponse (resp : RUrlResponse) : Except FetchErr (List KlarityNote) :=
  if resp.status == 401 || resp.status == 403 then .error .auth
  else if resp.status == 404 then .error .endpoint
  else if 500 ≤ resp.status then .error .server
  else if resp.status != 200 then .error (.unexpected resp.status)
  else
    match resp.json with
    | some (some notes) => .ok notes
    | _ => .error .malformed

/-- `fetchNotes` up to its `catch` block: the API-key validation happens
before the request is issued; the returned `Bool` records whether the
network request was made at all. -/
def fetchNotesRaw (apiKey : String) (resp : RUrlResponse) :
    Bool × Except FetchErr (List KlarityNote) :=
  if jsTrim apiKey == "" then (false, .error .emptyKey)
  else if apiKey.length < 32 then (false, .error .shortKey)
  else (true, classifyResponse resp)

/-- JavaScript `s.includes(sub)`. -/
def includesStr (s sub : String) : Bool := occursIn sub.data s.data

/-- The `catch` block of `fetchNotes` (`src/main.ts` lines 158–179) applied
to a thrown classified error.  The `error.status === 401` test never fires
for the errors thrown by the classification path (plain `Error` objects
carry no `status` field), so it is not modelled; the remaining tests
rewrap the message. -/
def catchWrap (msg : String) : String :=
  if includesStr msg "Failed to fetch" then
    "Cannot connect to Klarity. Please check your internet connection."
  else if includesStr msg "API key" || includesStr msg "Authentication" ||
      includesStr msg "Invalid response" then
    msg
  else
    "Failed to sync with Klarity: " ++ msg

/-- `fetchNotes` from `src/main.ts`: validation, classification and the
`catch` block's message rewrapping.  The first component records whether
the network request was issued. -/
def fetchNotes (apiKey : String) (resp : RUrlResponse) :
    Bool × Except String (List KlarityNote) :=
  let r := fetchNotesRaw apiKey resp
  (r.1, match r.2 with
    | .ok notes => .ok notes
    | .error e => .error (catchWrap e.message))

/-! ## Vault writer (`createOrUpdateNote`) -/

/-- An entry of the vault: a regular file with its content, or a folder. -/
inductive VEntry where
  | file (content : String)
  | folder
  deriving DecidableEq

/-- The vault, modelling the host's document store: a finite map from
normalized paths to entries, together with the set of paths on which write
operations throw (the environment's way of injecting per-note write
failures such as permission errors). -/
structure Vault where
  entries : List (String × VEntry)
  failing : List String
  deriving DecidableEq

/-- `app.vault.adapter.exists(path)`. -/
def Vault.pathExists (v : Vault) (p : String) : Bool :=
  (v.entries.find? (fun e => e.1 == p)).isSome

/-- `app.vault.getAbstractFileByPath(path)`: the entry at `p`, if any. -/
def Vault.get? (v : Vault) (p : String) : Option VEntry :=
  (v.entries.find? (fun e => e.1 == p)).map (·.2)

/-- Store `e` at `p`, replacing an existing entry in place (the host's
store keys files by path; no duplicate paths arise). -/
def Vault.set (v : Vault) (p : String) (e : VEntry) : Vault :=
  if v.pathExists p then
    { v with entries := v.entries.map (fun en => if en.1 == p then (p, e) else en) }
  else
    { v with entries := v.entries ++ [(p, e)] }

/-- `app.vault.createFolder(path)`; throws on a failing path. -/
def Vault.createFolder (v : Vault) (p : String) : Except String Vault :=
  if v.failing.contains p then .error "createFolder failed"
  else .ok (v.set p .folder)

/-- `app.vault.create(path, content)`; throws on a failing path. -/
def Vault.create (v : Vault) (p : String) (content : String) : Except String Vault :=
  if v.failing.contains p then .error "create failed"
  else .ok (v.set p (.file content))

/-- `app.vault.modify(file, content)`; throws on a failing path. -/
def Vault.modify (v : Vault) (p : String) (content : String) : Except String Vault :=
  if v.failing.contains p then .error "modify failed"
  else .ok (v.set p (.file content))

/-- The host's `normalizePath` helper, external to the repository; modelled
as the identity on already-normalized paths. -/
def normalizePath (p : String) : String := p

/-- The folder path computed by `createOrUpdateNote`. -/
def folderPathOf (st : KlarityPluginSettings) : String :=
  normalizePath st.syncDirectory

/-- The file path computed by `createOrUpdateNote`:
`{syncDirectory}/{sanitize(title)}.md`. -/
def filePathOf (st : KlarityPluginSettings) (note : KlarityNote) : String :=
  folderPathOf st ++ "/" ++ sanitizeFilename note.title ++ ".md"

/-- `createOrUpdateNote` from `src/main.ts`: ensure the sync folder exists,
then create the note's file or, when a file already exists at the computed
path, overwrite it in place; an existing non-file entry at that path is
silently skipped (`file instanceof TFile` fails and nothing is written).
The second component carries the thrown error, if any; the first the vault
after whatever side effects happened before the throw. -/
def createOrUpdateNote (st : KlarityPluginSettings) (v : Vault)
    (note : KlarityNote) : Vault × Option String :=
  let folderPath := folderPathOf st
  match (if !(v.pathExists folderPath) then v.createFolder folderPath else .ok v) with
  | .error e => (v, some e)
  | .ok v1 =>
    let filePath := filePathOf st note
    let content := formatNote st note
    if v1.pathExists filePath then
      match v1.get? filePath with
      | some (.file _) =>
        match v1.modify filePath content with
        | .ok v2 => (v2, none)
        | .error e => (v1, some e)
      | _ => (v1, none)
    else
      match v1.create filePath content with
      | .ok v2 => (v2, none)
      | .error e => (v1, some e)

/-! ## Sync orchestrator (`syncNotes`) -/

/-- The observable outcome of one `syncNotes` cycle: the settings and vault
afterwards, the processed count, the total note count, the per-note failure
notices, the log entries, the user-facing notices, and whether settings
were persisted (`saveSettings` was called). -/
structure SyncOutcome where
  settings : KlarityPluginSettings
  vault : Vault
  processed : Nat
  total : Nat
  failedNotes : List String
  logs : List String
  notices : List String
  persisted : Bool
  deriving DecidableEq

/-- The loop body of `syncNotes`: process one note, either incrementing the
processed count or recording the per-note failure notice and log entry. -/
def syncStep (st : KlarityPluginSettings)
    (acc : Vault × Nat × List String × List String) (note : KlarityNote) :
    Vault × Nat × List String × List String :=
  match createOrUpdateNote st acc.1 note with
  | (v2, none) => (v2, acc.2.1 + 1, acc.2.2.1, acc.2.2.2)
  | (v2, some _) =>
    (v2, acc.2.1,
      acc.2.2.1 ++ ["Failed to save note \"" ++ note.title ++ "\". Check console for details."],
      acc.2.2.2 ++ ["Error processing note \"" ++ note.title ++ "\""])

/-- `syncNotes` from `src/main.ts`: guard on a missing API key, fetch, loop
over the notes tolerating per-note failures, then update `lastSyncTime` and
persist the settings; a fetch failure aborts the cycle before any write. -/
def syncNotes (st : KlarityPluginSettings) (resp : RUrlResponse) (v : Vault)
    (now : String) (showNotice : Bool) : SyncOutcome :=
  if st.apiKey == "" then
    { settings := st, vault := v, processed := 0, total := 0,
      failedNotes := [], logs := [],
      notices := ["Please set your Klarity API key in settings"],
      persisted := false }
  else
    let startNotices := if showNotice then ["Starting Klarity sync..."] else []
    match (fetchNotes st.apiKey resp).2 with
    | .error msg =>
      { settings := st, vault := v, processed := 0, total := 0,
        failedNotes := [], logs := ["Sync failed: " ++ msg],
        notices := startNotices ++ [msg], persisted := false }
    | .ok notes =>
      let r := notes.foldl (syncStep st) (v, 0, [], [])
      let message := "Synced " ++ toString r.2.1 ++ "/" ++ toString notes.length ++
        " notes from Klarity"
      { settings := { st with lastSyncTime := now }, vault := r.1,
        processed := r.2.1, total := notes.length,
        failedNotes := r.2.2.1, logs := r.2.2.2,
        notices := startNotices ++ r.2.2.1 ++
          (if showNotice then [message] else []),
        persisted := true }

/-! ## Concrete data used by witnesses and counterexamples -/

/-- The five template tokens of a note, as simultaneous-substitution tokens,
in the renderer's order. -/
def tokensOf (note : KlarityNote) : List Tok :=
  [⟨'\x7b', "\x7bid\x7d\x7d".data, note.id.data⟩,
   ⟨'\x7b', "\x7btitle\x7d\x7d".data, note.title.data⟩,
   ⟨'\x7b', "\x7bcreatedAt\x7d\x7d".data, note.createdAt.data⟩,
   ⟨'\x7b', "\x7bupdatedAt\x7d\x7d".data, note.updatedAt.data⟩,
   ⟨'\x7b', "\x7btranscription\x7d\x7d".data, note.transcription.data⟩]

/-- Simultaneous template rendering, per the spec's words: all five tokens
substituted in a single pass over the template. -/
def simulRender (st : KlarityPluginSettings) (note : KlarityNote) : String :=
  ⟨simulSubst (tokensOf note) st.noteTemplate.data⟩

/-- Sequential application of a list of plain global replacements, head
first — a proof device mirroring `seqReplaceD` for dollar-free values. -/
def seqReplace : List Tok → List Char → List Char
  | [], s => s
  | tk :: rest, s => seqReplace rest (replacePlain tk.pat tk.val s)

/-- Sequential application of a list of global replacements, head first —
the shape of the renderer's chained `.replace` calls, dollar escapes
included. -/
def seqReplaceD : List Tok → List Char → List Char
  | [], s => s
  | tk :: rest, s => seqReplaceD rest (replaceList tk.pat tk.val s)

/-- Sufficient condition on a note's field values for sequential and
simultaneous substitution to agree: every value is nonempty, contains no
head character of a token (the opening brace), contains no dollar sign (so
the replacement string has no active JavaScript dollar escapes), and is not
a fragment of any token — it neither starts with a token's proper suffix
nor is a prefix of one, so an inserted value can never combine with
surrounding text into a token occurrence. -/
def SafeVals (note : KlarityNote) : Prop :=
  (∀ q ∈ tokensOf note, q.val ≠ []) ∧
  (∀ q ∈ tokensOf note, ∀ q' ∈ tokensOf note, ∀ c ∈ q.val, (c = q'.hd) → False) ∧
  (∀ q ∈ tokensOf note, ∀ c ∈ q.val, (c = '$') → False) ∧
  (∀ q ∈ tokensOf note, ∀ q' ∈ tokensOf note, ∀ j, j < q'.pat.length → 0 < j →
    isPre q.val (q'.pat.drop j) = false ∧ isPre (q'.pat.drop j) q.val = false)

instance (note : KlarityNote) : Decidable (SafeVals note) := by
  unfold SafeVals
  infer_instance

/-- The single note of the spec's concrete rendering example. -/
def noteA : KlarityNote :=
  { id := "1", title := "A", transcription := "x",
    createdAt := "2024-01-01T00:00:00Z", updatedAt := "2024-01-01T00:00:00Z" }

/-- A note whose `id` field is itself the literal token of the `title`
placeholder: sequential substitution rewrites the inserted value. -/
def noteCx : KlarityNote :=
  { id := "\x7b\x7btitle\x7d\x7d", title := "B", transcription := "x",
    createdAt := "c", updatedAt := "u" }

/-- Settings whose template is exactly the `id` placeholder. -/
def stCx : KlarityPluginSettings :=
  { DEFAULT_SETTINGS with noteTemplate := "\x7b\x7bid\x7d\x7d" }

/-- A note with purely numeric field values: numerals occur nowhere in the
tokens, so the values satisfy `SafeVals`. -/
def noteSafe : KlarityNote :=
  { id := "101", title := "202", transcription := "303",
    createdAt := "404", updatedAt := "505" }

/-- A 32-character API key accepted by the validation. -/
def validKey : String := "0123456789abcdef0123456789abcdef"

/-- Settings with a valid API key and otherwise the defaults. -/
def stOk : KlarityPluginSettings := { DEFAULT_SETTINGS with apiKey := validKey }

/-- An empty vault with no failing paths. -/
def vault0 : Vault := { entries := [], failing := [] }

/-- A vault holding the sync folder and an existing file for `noteA`. -/
def vaultA : Vault :=
  { entries := [("Klarity", .folder), ("Klarity/A.md", .file "old")], failing := [] }

/-- A vault in which the entity at `noteA`'s computed path is a folder. -/
def vaultB : Vault :=
  { entries := [("Klarity", .folder), ("Klarity/A.md", .folder)], failing := [] }

/-! ## Fuel-elimination equations for the replacement workers -/

theorem repF_congr (p v : List Char) :
    ∀ f g s, s.length ≤ f → s.length ≤ g → repF p v f s = repF p v g s := by
  intro f
  induction f with
  | zero =>
    intro g s hf _
    have hs : s = [] := List.eq_nil_of_length_eq_zero (Nat.le_zero.mp hf)
    subst hs
    cases g <;> rfl
  | succ f ih =>
    intro g s hf hg
    cases s with
    | nil => cases g <;> rfl
    | cons c t =>
      cases g with
      | zero => simp at hg
      | succ g =>
        simp only [repF]
        by_cases hp : isPre p (c :: t) = true
        · simp only [hp, if_true]
          have h1 : (t.drop (p.length - 1)).length ≤ f := by
            simp only [List.length_cons] at hf
            simp only [List.length_drop]
            omega
          have h2 : (t.drop (p.length - 1)).length ≤ g := by
            simp only [List.length_cons] at hg
            simp only [List.length_drop]
            omega
          rw [ih g (t.drop (p.length - 1)) h1 h2]
        · simp only [hp, if_false, Bool.false_eq_true]
          have h1 : t.length ≤ f := by simp only [List.length_cons] at hf; omega
          have h2 : t.length ≤ g := by simp only [List.length_cons] at hg; omega
          rw [ih g t h1 h2]

theorem repF_eq_replacePlain (p v : List Char) (f : Nat) (s : List Char)
    (h : s.length ≤ f) : repF p v f s = replacePlain p v s :=
  repF_congr p v f s.length s h le_rfl

theorem replacePlain_nil (p v : List Char) : replacePlain p v [] = [] := rfl

theorem replacePlain_cons (p v : List Char) (c : Char) (t : List Char) :
    replacePlain p v (c :: t) =
      if isPre p (c :: t) then v ++ replacePlain p v (t.drop (p.length - 1))
      else c :: replacePlain p v t := by
  show repF p v (t.length + 1) (c :: t) = _
  simp only [repF]
  by_cases hp : isPre p (c :: t) = true
  · simp only [hp, if_true]
    rw [repF_eq_replacePlain p v t.length (t.drop (p.length - 1))
      (by simp only [List.length_drop]; omega)]
  · simp only [hp, if_false, Bool.false_eq_true]
    rw [repF_eq_replacePlain p v t.length t le_rfl]

theorem expandDollar_no_dollar (b m a : List Char) :
    ∀ (v : List Char), (∀ c ∈ v, (c = '$') → False) →
      expandDollar b m a v = v := by
  intro v
  induction v with
  | nil => intro _; rfl
  | cons c rest ih =>
    intro hv
    have hc : ¬ c = '$' := fun he => hv c (List.mem_cons_self _ _) he
    cases rest with
    | nil => rfl
    | cons d rest' =>
      simp only [expandDollar]
      rw [if_neg hc, ih (fun e he => hv e (List.mem_cons_of_mem _ he))]

theorem repFD_eq_repF (p v : List Char) (hv : ∀ c ∈ v, (c = '$') → False) :
    ∀ (f : Nat) (b s : List Char), repFD p v f b s = repF p v f s := by
  intro f
  induction f with
  | zero => intro b s; rfl
  | succ f ih =>
    intro b s
    cases s with
    | nil => rfl
    | cons c t =>
      simp only [repFD, repF]
      by_cases hm : isPre p (c :: t) = true
      · rw [if_pos hm, if_pos hm, expandDollar_no_dollar _ _ _ v hv, ih]
      · rw [if_neg hm, if_neg hm, ih]

/-- For a dollar-free replacement value the faithful replace agrees with the
plain, literal-insertion one. -/
theorem replaceList_eq_plain (p v s : List Char)
    (hv : ∀ c ∈ v, (c = '$') → False) :
    replaceList p v s = replacePlain p v s :=
  repFD_eq_repF p v hv s.length [] s

/-- For dollar-free values the chained faithful replacements agree with the
chained plain ones. -/
theorem seqReplaceD_eq_seqReplace :
    ∀ (toks : List Tok), (∀ q ∈ toks, ∀ c ∈ q.val, (c = '$') → False) →
      ∀ s, seqReplaceD toks s = seqReplace toks s := by
  intro toks
  induction toks with
  | nil => intro _ _; rfl
  | cons tk rest ih =>
    intro h s
    show seqReplaceD rest (replaceList tk.pat tk.val s) =
      seqReplace rest (replacePlain tk.pat tk.val s)
    rw [replaceList_eq_plain tk.pat tk.val s (h tk (List.mem_cons_self _ _))]
    exact ih (fun q hq => h q (List.mem_cons_of_mem _ hq)) _

theorem simF_congr (tks : List Tok) :
    ∀ f g s, s.length ≤ f → s.length ≤ g → simF tks f s = simF tks g s := by
  intro f
  induction f with
  | zero =>
    intro g s hf _
    have hs : s = [] := List.eq_nil_of_length_eq_zero (Nat.le_zero.mp hf)
    subst hs
    cases g <;> rfl
  | succ f ih =>
    intro g s hf hg
    cases s with
    | nil => cases g <;> rfl
    | cons c t =>
      cases g with
      | zero => simp at hg
      | succ g =>
        simp only [simF]
        cases hft : findTok (c :: t) tks with
        | some tk =>
          have h1 : (t.drop tk.tl.length).length ≤ f := by
            simp only [List.length_cons] at hf
            simp only [List.length_drop]
            omega
          have h2 : (t.drop tk.tl.length).length ≤ g := by
            simp only [List.length_cons] at hg
            simp only [List.length_drop]
            omega
          dsimp only
          rw [ih g (t.drop tk.tl.length) h1 h2]
        | none =>
          have h1 : t.length ≤ f := by simp only [List.length_cons] at hf; omega
          have h2 : t.length ≤ g := by simp only [List.length_cons] at hg; omega
          dsimp only
          rw [ih g t h1 h2]

theorem simF_eq_simulSubst (tks : List Tok) (f : Nat) (s : List Char)
    (h : s.length ≤ f) : simF tks f s = simulSubst tks s :=
  simF_congr tks f s.length s h le_rfl

theorem simulSubst_nil (tks : List Tok) : simulSubst tks [] = [] := rfl

theorem simulSubst_cons (tks : List Tok) (c : Char) (t : List Char) :
    simulSubst tks (c :: t) =
      match findTok (c :: t) tks with
      | some tk => tk.val ++ simulSubst tks (t.drop tk.tl.length)
      | none => c :: simulSubst tks t := by
  show simF tks (t.length + 1) (c :: t) = _
  simp only [simF]
  cases hft : findTok (c :: t) tks with
  | some tk =>
    dsimp only
    rw [simF_eq_simulSubst tks t.length (t.drop tk.tl.length)
      (by simp only [List.length_drop]; omega)]
  | none =>
    dsimp only
    rw [simF_eq_simulSubst tks t.length t le_rfl]

/-! ## Token substitution: sequential versus simultaneous

The renderer applies its five replacements one after another; the spec
describes a single simultaneous substitution.  The lemmas of this section
prove the two agree when the replacement values cannot combine with the
surrounding text into a token: values that are nonempty, free of the
tokens' head character, and not fragments of any token. -/

theorem isPre_append_self (p u : List Char) : isPre p (p ++ u) = true := by
  induction p with
  | nil => rfl
  | cons a p' ih => simp [isPre, ih]

theorem isPre_split (x : List Char) :
    ∀ (p u : List Char), isPre p (x ++ u) = true →
      isPre p x = true ∨ isPre x p = true := by
  induction x with
  | nil => intro p u _; right; rfl
  | cons a x' ih =>
    intro p u h
    cases p with
    | nil => left; rfl
    | cons b p' =>
      rw [List.cons_append] at h
      simp only [isPre, Bool.and_eq_true, beq_iff_eq] at h ⊢
      obtain ⟨hba, h2⟩ := h
      rcases ih p' u h2 with h3 | h3
      · left; exact ⟨hba, h3⟩
      · right; exact ⟨hba.symm, h3⟩

theorem isPre_false_append (p x u : List Char) (h1 : isPre p x = false)
    (h2 : isPre x p = false) : isPre p (x ++ u) = false := by
  cases hb : isPre p (x ++ u) with
  | false => rfl
  | true =>
    rcases isPre_split x p u hb with h | h
    · rw [h] at h1; exact Bool.noConfusion h1
    · rw [h] at h2; exact Bool.noConfusion h2

theorem isPre_eq_append (p : List Char) :
    ∀ s, isPre p s = true → s = p ++ s.drop p.length := by
  induction p with
  | nil => intro s _; rfl
  | cons a p' ih =>
    intro s h
    cases s with
    | nil => simp [isPre] at h
    | cons c t =>
      simp only [isPre, Bool.and_eq_true, beq_iff_eq] at h
      obtain ⟨hac, h2⟩ := h
      have ht := ih t h2
      rw [List.length_cons, List.drop_succ_cons, List.cons_append, ← ht, hac]

theorem findTok_eq_some {s : List Char} :
    ∀ {toks : List Tok} {q : Tok}, findTok s toks = some q →
      q ∈ toks ∧ isPre q.pat s = true := by
  intro toks
  induction toks with
  | nil => intro q h; exact Option.noConfusion h
  | cons tk tks ih =>
    intro q h
    unfold findTok at h
    by_cases hm : isPre tk.pat s = true
    · rw [if_pos hm] at h
      obtain rfl : tk = q := Option.some.inj h
      exact ⟨List.mem_cons_self _ _, hm⟩
    · rw [if_neg hm] at h
      obtain ⟨hmem, hp⟩ := ih h
      exact ⟨List.mem_cons_of_mem _ hmem, hp⟩

theorem findTok_eq_none {s : List Char} :
    ∀ {toks : List Tok}, findTok s toks = none →
      ∀ q ∈ toks, isPre q.pat s = false := by
  intro toks
  induction toks with
  | nil => intro _ q hq; simp at hq
  | cons tk tks ih =>
    intro h q hq
    unfold findTok at h
    by_cases hm : isPre tk.pat s = true
    · rw [if_pos hm] at h; exact Option.noConfusion h
    · rw [if_neg hm] at h
      rcases List.mem_cons.mp hq with rfl | hq'
      · simpa using hm
      · exact ih h q hq'

theorem findTok_none_intro {s : List Char} :
    ∀ {toks : List Tok}, (∀ q ∈ toks, isPre q.pat s = false) →
      findTok s toks = none := by
  intro toks
  induction toks with
  | nil => intro _; rfl
  | cons tk tks ih =>
    intro h
    unfold findTok
    rw [if_neg (by simp [h tk (List.mem_cons_self _ _)])]
    exact ih (fun q hq => h q (List.mem_cons_of_mem _ hq))

theorem simul_toks_nil : ∀ s, simulSubst [] s = s := by
  intro s
  induction s with
  | nil => rfl
  | cons c t ih =>
    rw [simulSubst_cons]
    show c :: simulSubst [] t = c :: t
    rw [ih]

theorem simul_append_inert (toks : List Tok) :
    ∀ (v w : List Char), (∀ q ∈ toks, ∀ c ∈ v, (c = q.hd) → False) →
      simulSubst toks (v ++ w) = v ++ simulSubst toks w := by
  intro v
  induction v with
  | nil => intro w _; rfl
  | cons c v' ih =>
    intro w hv
    rw [List.cons_append, simulSubst_cons]
    have hnone : findTok (c :: (v' ++ w)) toks = none := by
      apply findTok_none_intro
      intro q hq
      have hne : (q.hd == c) = false := by
        cases hb : q.hd == c with
        | false => rfl
        | true =>
          exact absurd ((by simpa using hb : q.hd = c)).symm
            (fun he => hv q hq c (List.mem_cons_self _ _) he)
      show isPre (q.hd :: q.tl) (c :: (v' ++ w)) = false
      simp [isPre, hne]
    rw [hnone]
    show c :: simulSubst toks (v' ++ w) = c :: (v' ++ simulSubst toks w)
    rw [ih w (fun q hq d hd => hv q hq d (List.mem_cons_of_mem _ hd))]

theorem replacePlain_append_passes (p v : List Char) :
    ∀ (x u : List Char), (∀ j, j < x.length → isPre p (x.drop j ++ u) = false) →
      replacePlain p v (x ++ u) = x ++ replacePlain p v u := by
  intro x
  induction x with
  | nil => intro u _; rfl
  | cons c x' ih =>
    intro u h
    rw [List.cons_append, replacePlain_cons]
    have h0 : isPre p (c :: (x' ++ u)) = false := by
      have := h 0 (by simp)
      simpa using this
    rw [h0]
    show c :: replacePlain p v (x' ++ u) = c :: (x' ++ replacePlain p v u)
    rw [ih u (fun j hj => by
      have := h (j + 1) (by simpa using Nat.succ_lt_succ hj)
      simpa using this)]

/-- Replacement does not create new occurrences of a pattern remnant
`(d :: q').drop j`: if such a remnant starts the replaced string, it
already started the original string — provided the inserted value is
nonempty, avoids the remnant's head character `d`, and is not a fragment of
`d :: q'`. -/
theorem no_new_match (p v : List Char) (d : Char) (q' : List Char)
    (hv0 : v ≠ [])
    (hv1 : ∀ c ∈ v, (c = d) → False)
    (hv2 : ∀ j, j < (d :: q').length → 0 < j →
      isPre v ((d :: q').drop j) = false ∧ isPre ((d :: q').drop j) v = false) :
    ∀ (s : List Char), ∀ j, j < (d :: q').length →
      isPre ((d :: q').drop j) (replacePlain p v s) = true →
      isPre ((d :: q').drop j) s = true := by
  intro s
  induction s with
  | nil =>
    intro j hj h
    rw [replacePlain_nil] at h
    rw [List.drop_eq_getElem_cons hj] at h
    simp [isPre] at h
  | cons c t ih =>
    intro j hj h
    by_cases hm : isPre p (c :: t) = true
    · rw [replacePlain_cons, if_pos hm] at h
      exfalso
      rcases isPre_split v _ _ h with h' | h'
      · rcases Nat.eq_zero_or_pos j with rfl | hjpos
        · rw [List.drop_zero] at h'
          cases v with
          | nil => exact hv0 rfl
          | cons a v'' =>
            simp only [isPre, Bool.and_eq_true, beq_iff_eq] at h'
            exact hv1 a (List.mem_cons_self _ _) h'.1.symm
        · rw [(hv2 j hj hjpos).2] at h'
          exact Bool.noConfusion h'
      · rcases Nat.eq_zero_or_pos j with rfl | hjpos
        · rw [List.drop_zero] at h'
          cases v with
          | nil => exact hv0 rfl
          | cons a v'' =>
            simp only [isPre, Bool.and_eq_true, beq_iff_eq] at h'
            exact hv1 a (List.mem_cons_self _ _) h'.1
        · rw [(hv2 j hj hjpos).1] at h'
          exact Bool.noConfusion h'
    · rw [replacePlain_cons, if_neg hm] at h
      rw [List.drop_eq_getElem_cons hj] at h ⊢
      simp only [isPre, Bool.and_eq_true] at h ⊢
      refine ⟨h.1, ?_⟩
      by_cases hj1 : j + 1 < (d :: q').length
      · exact ih (j + 1) hj1 h.2
      · have : (d :: q').drop (j + 1) = [] :=
          List.drop_eq_nil_of_le (by omega)
        rw [this]
        rfl

/-- If the first matching token for `q.pat ++ u` is `q`, it stays the first
matching token whatever follows `q.pat`, as long as no other pattern of the
family is a prefix of another. -/
theorem findTok_append_stable (q : Tok) (u w : List Char) :
    ∀ (toks : List Tok),
      (∀ q' ∈ toks, q' = q ∨
        (isPre q'.pat q.pat = false ∧ isPre q.pat q'.pat = false)) →
      findTok (q.pat ++ u) toks = some q →
      findTok (q.pat ++ w) toks = some q := by
  intro toks
  induction toks with
  | nil => intro _ h; exact Option.noConfusion h
  | cons tk tks ih =>
    intro h4 hfind
    unfold findTok at hfind ⊢
    by_cases hm : isPre tk.pat (q.pat ++ u) = true
    · rw [if_pos hm] at hfind
      obtain rfl : tk = q := Option.some.inj hfind
      rw [if_pos (isPre_append_self _ _)]
    · rw [if_neg hm] at hfind
      have htk : tk ≠ q := by
        rintro rfl
        exact hm (isPre_append_self _ _)
      rcases h4 tk (List.mem_cons_self _ _) with rfl | ⟨hov1, hov2⟩
      · exact absurd rfl htk
      · rw [if_neg (by simp [isPre_false_append _ _ w hov1 hov2])]
        exact ih (fun q' hq' => h4 q' (List.mem_cons_of_mem _ hq')) hfind

/-- Peeling one replacement off a simultaneous substitution: substituting
`tk :: rest` simultaneously is the same as first running the global
replacement of `tk` and then substituting `rest` simultaneously, provided
`tk`'s value is nonempty, avoids the head character of every pattern in
`rest`, is not a fragment of any pattern in `rest`, `tk`'s pattern does not
overlap the interior of any pattern in `rest`, and no pattern of the family
is a prefix of another. -/
theorem simul_peel (tk : Tok) (rest : List Tok)
    (hv0 : tk.val ≠ [])
    (hv1 : ∀ q ∈ rest, ∀ c ∈ tk.val, (c = q.hd) → False)
    (hpp : ∀ q ∈ rest, ∀ j, j < q.pat.length → 0 < j →
      isPre tk.pat (q.pat.drop j) = false ∧ isPre (q.pat.drop j) tk.pat = false)
    (hvp : ∀ q ∈ rest, ∀ j, j < q.pat.length → 0 < j →
      isPre tk.val (q.pat.drop j) = false ∧ isPre (q.pat.drop j) tk.val = false)
    (hnp : ∀ q ∈ tk :: rest, ∀ q' ∈ tk :: rest,
      isPre q.pat q'.pat = true → q = q') :
    ∀ s, simulSubst (tk :: rest) s =
      simulSubst rest (replacePlain tk.pat tk.val s) := by
  suffices H : ∀ n (s : List Char), s.length ≤ n →
      simulSubst (tk :: rest) s = simulSubst rest (replacePlain tk.pat tk.val s) by
    intro s
    exact H s.length s le_rfl
  intro n
  induction n with
  | zero =>
    intro s hs
    have : s = [] := List.eq_nil_of_length_eq_zero (Nat.le_zero.mp hs)
    subst this
    rfl
  | succ n ih =>
    intro s hs
    cases s with
    | nil => rfl
    | cons c t =>
      have htn : t.length ≤ n := by
        simp only [List.length_cons] at hs
        omega
      by_cases h1 : isPre tk.pat (c :: t) = true
      · -- the peeled token matches at the head
        have hLfind : findTok (c :: t) (tk :: rest) = some tk := by
          unfold findTok
          rw [if_pos h1]
        rw [simulSubst_cons, hLfind]
        show tk.val ++ simulSubst (tk :: rest) (t.drop tk.tl.length) = _
        rw [replacePlain_cons, if_pos h1]
        have hd1 : tk.pat.length - 1 = tk.tl.length := by
          show tk.tl.length + 1 - 1 = tk.tl.length
          omega
        rw [hd1]
        rw [simul_append_inert rest tk.val _ hv1]
        have hdrop : (t.drop tk.tl.length).length ≤ n := by
          simp only [List.length_drop]
          omega
        rw [ih (t.drop tk.tl.length) hdrop]
      · cases hfr : findTok (c :: t) rest with
        | some q =>
          -- a token of the remainder matches at the head
          obtain ⟨hqmem, hqm⟩ := findTok_eq_some hfr
          have hdecomp : c :: t = q.pat ++ (c :: t).drop q.pat.length :=
            isPre_eq_append q.pat (c :: t) hqm
          have hu : (c :: t).drop q.pat.length = t.drop q.tl.length := by
            show (c :: t).drop (q.tl.length + 1) = t.drop q.tl.length
            rw [List.drop_succ_cons]
          have hrep : replacePlain tk.pat tk.val (c :: t) =
              q.pat ++ replacePlain tk.pat tk.val (t.drop q.tl.length) := by
            conv in replacePlain tk.pat tk.val (c :: t) =>
              rw [hdecomp, hu]
            rw [replacePlain_append_passes tk.pat tk.val q.pat (t.drop q.tl.length)]
            intro j hj
            rcases Nat.eq_zero_or_pos j with rfl | hjpos
            · rw [List.drop_zero, ← hu, ← hdecomp]
              simpa using h1
            · obtain ⟨ho1, ho2⟩ := hpp q hqmem j hj hjpos
              exact isPre_false_append _ _ _ ho1 ho2
          have hLfind : findTok (c :: t) (tk :: rest) = some q := by
            unfold findTok
            rw [if_neg (by simp [h1]), hfr]
          rw [simulSubst_cons, hLfind]
          show q.val ++ simulSubst (tk :: rest) (t.drop q.tl.length) = _
          rw [hrep]
          have hstable : findTok
              (q.pat ++ replacePlain tk.pat tk.val (t.drop q.tl.length)) rest =
              some q := by
            apply findTok_append_stable q ((c :: t).drop q.pat.length) _ rest
            · intro q' hq'
              by_cases he : q' = q
              · exact Or.inl he
              · refine Or.inr ⟨?_, ?_⟩
                · cases hb : isPre q'.pat q.pat with
                  | false => rfl
                  | true =>
                    exact absurd (hnp q' (List.mem_cons_of_mem _ hq') q
                      (List.mem_cons_of_mem _ hqmem) hb) he
                · cases hb : isPre q.pat q'.pat with
                  | false => rfl
                  | true =>
                    exact absurd (hnp q (List.mem_cons_of_mem _ hqmem) q'
                      (List.mem_cons_of_mem _ hq') hb).symm he
            · rw [← hdecomp]
              exact hfr
          have hq_cons : q.pat ++ replacePlain tk.pat tk.val (t.drop q.tl.length) =
              q.hd :: (q.tl ++ replacePlain tk.pat tk.val (t.drop q.tl.length)) := by
            show (q.hd :: q.tl) ++ _ = _
            rw [List.cons_append]
          rw [hq_cons] at hstable ⊢
          rw [simulSubst_cons, hstable]
          show _ = q.val ++ simulSubst rest
            ((q.tl ++ replacePlain tk.pat tk.val (t.drop q.tl.length)).drop q.tl.length)
          rw [List.drop_left]
          have hdrop : (t.drop q.tl.length).length ≤ n := by
            simp only [List.length_drop]
            omega
          rw [ih (t.drop q.tl.length) hdrop]
        | none =>
          -- no token matches at the head
          have hLfind : findTok (c :: t) (tk :: rest) = none := by
            unfold findTok
            rw [if_neg (by simp [h1]), hfr]
          rw [simulSubst_cons, hLfind]
          show c :: simulSubst (tk :: rest) t = _
          rw [replacePlain_cons, if_neg (by simp [h1])]
          have hRfind : findTok (c :: replacePlain tk.pat tk.val t) rest = none := by
            apply findTok_none_intro
            intro q hq
            cases hb : isPre q.pat (c :: replacePlain tk.pat tk.val t) with
            | false => rfl
            | true =>
              exfalso
              have hb' : isPre q.pat (replacePlain tk.pat tk.val (c :: t)) = true := by
                rw [replacePlain_cons, if_neg (by simp [h1])]
                exact hb
              have horig : isPre q.pat (c :: t) = true := by
                have := no_new_match tk.pat tk.val q.hd q.tl hv0
                  (hv1 q hq) (hvp q hq) (c :: t) 0 (by simp)
                rw [List.drop_zero] at this
                exact this hb'
              have := findTok_eq_none hfr q hq
              rw [horig] at this
              exact Bool.noConfusion this
          rw [simulSubst_cons, hRfind]
          show _ = c :: simulSubst rest (replacePlain tk.pat tk.val t)
          rw [ih t htn]

/-- Iterating the peel: simultaneous substitution of a family of tokens
agrees with the sequential replacements, head first, under the safety
conditions on every value/pattern pair of the family. -/
theorem simul_seq_chain :
    ∀ (toks : List Tok),
      (∀ q ∈ toks, q.val ≠ []) →
      (∀ q ∈ toks, ∀ q' ∈ toks, ∀ c ∈ q.val, (c = q'.hd) → False) →
      (∀ q ∈ toks, ∀ q' ∈ toks, ∀ j, j < q'.pat.length → 0 < j →
        isPre q.pat (q'.pat.drop j) = false ∧
        isPre (q'.pat.drop j) q.pat = false) →
      (∀ q ∈ toks, ∀ q' ∈ toks, ∀ j, j < q'.pat.length → 0 < j →
        isPre q.val (q'.pat.drop j) = false ∧
        isPre (q'.pat.drop j) q.val = false) →
      (∀ q ∈ toks, ∀ q' ∈ toks, isPre q.pat q'.pat = true → q = q') →
      ∀ s, simulSubst toks s = seqReplace toks s := by
  intro toks
  induction toks with
  | nil => intro _ _ _ _ _ s; exact simul_toks_nil s
  | cons tk rest ih =>
    intro h0 hhd hpp hvp hnp s
    have hmem : tk ∈ tk :: rest := List.mem_cons_self _ _
    rw [simul_peel tk rest (h0 tk hmem)
      (fun q hq c hc he => hhd tk hmem q (List.mem_cons_of_mem _ hq) c hc he)
      (fun q hq j hj hjpos => hpp tk hmem q (List.mem_cons_of_mem _ hq) j hj hjpos)
      (fun q hq j hj hjpos => hvp tk hmem q (List.mem_cons_of_mem _ hq) j hj hjpos)
      hnp s]
    show simulSubst rest (replacePlain tk.pat tk.val s) = seqReplace (tk :: rest) s
    have := ih
      (fun q hq => h0 q (List.mem_cons_of_mem _ hq))
      (fun q hq q' hq' => hhd q (List.mem_cons_of_mem _ hq) q' (List.mem_cons_of_mem _ hq'))
      (fun q hq q' hq' => hpp q (List.mem_cons_of_mem _ hq) q' (List.mem_cons_of_mem _ hq'))
      (fun q hq q' hq' => hvp q (List.mem_cons_of_mem _ hq) q' (List.mem_cons_of_mem _ hq'))
      (fun q hq q' hq' => hnp q (List.mem_cons_of_mem _ hq) q' (List.mem_cons_of_mem _ hq'))
      (replacePlain tk.pat tk.val s)
    rw [this]
    rfl

/-! ## General string helpers -/

theorem string_ne_empty {s : String} {c : Char} {l : List Char}
    (h : s.data = c :: l) : s ≠ "" := by
  intro he
  rw [he] at h
  exact List.noConfusion h

theorem string_ne_of_head {s t : String} {c d : Char} {ls lt : List Char}
    (hs : s.data = c :: ls) (ht : t.data = d :: lt) (hcd : c ≠ d) : s ≠ t := by
  intro he
  rw [he, ht] at hs
  exact hcd (List.head_eq_of_cons_eq hs.symm)

theorem unexpected_message_data (n : Nat) :
    ∃ l, (FetchErr.unexpected n).message.data = 'U' :: l := by
  refine ⟨"nexpected error (HTTP ".data ++ (toString n).data ++
    "). Please try again later.".data, ?_⟩
  show (("Unexpected error (HTTP " ++ toString n) ++ "). Please try again later.").data = _
  rw [String.data_append, String.data_append]
  have : ("Unexpected error (HTTP " : String).data =
      'U' :: ("nexpected error (HTTP " : String).data := rfl
  rw [this]
  simp

/-- Every classified error message is nonempty. -/
theorem message_ne_empty (e : FetchErr) : e.message ≠ "" := by
  cases e with
  | unexpected n =>
    obtain ⟨l, hl⟩ := unexpected_message_data n
    exact string_ne_empty hl
  | _ => decide

/-- The catch-block rewrap of a nonempty message is nonempty. -/
theorem catchWrap_ne_empty (msg : String) (h : msg ≠ "") : catchWrap msg ≠ "" := by
  unfold catchWrap
  by_cases h1 : includesStr msg "Failed to fetch" = true
  · simp only [h1, if_true]
    decide
  · simp only [h1, if_false, Bool.false_eq_true]
    by_cases h2 : (includesStr msg "API key" || includesStr msg "Authentication" ||
        includesStr msg "Invalid response") = true
    · simp only [h2, if_true]
      exact h
    · simp only [h2, if_false, Bool.false_eq_true]
      have hs : ("Failed to sync with Klarity: " ++ msg).data =
          'F' :: ("ailed to sync with Klarity: ".data ++ msg.data) := by
        rw [String.data_append]
        have : ("Failed to sync with Klarity: " : String).data =
            'F' :: ("ailed to sync with Klarity: " : String).data := rfl
        rw [this]
        rfl
      exact string_ne_empty hs

/-- The dead `else` branch's message is never produced, whatever the error. -/
theorem catchWrap_ne_alt (e : FetchErr) :
    catchWrap e.message ≠
      "Authentication failed. Please verify your API key is correct in settings." := by
  cases e with
  | unexpected n =>
    obtain ⟨l, hl⟩ := unexpected_message_data n
    have halt : ("Authentication failed. Please verify your API key is correct in settings." : String).data =
        'A' :: ("uthentication failed. Please verify your API key is correct in settings." : String).data := rfl
    unfold catchWrap
    by_cases h1 : includesStr (FetchErr.unexpected n).message "Failed to fetch" = true
    · simp only [h1, if_true]
      decide
    · simp only [h1, if_false, Bool.false_eq_true]
      by_cases h2 : (includesStr (FetchErr.unexpected n).message "API key" ||
          includesStr (FetchErr.unexpected n).message "Authentication" ||
          includesStr (FetchErr.unexpected n).message "Invalid response") = true
      · simp only [h2, if_true]
        exact string_ne_of_head hl halt (by decide)
      · simp only [h2, if_false, Bool.false_eq_true]
        have hs : ("Failed to sync with Klarity: " ++ (FetchErr.unexpected n).message).data =
            'F' :: ("ailed to sync with Klarity: ".data ++
              (FetchErr.unexpected n).message.data) := by
          rw [String.data_append]
          have : ("Failed to sync with Klarity: " : String).data =
              'F' :: ("ailed to sync with Klarity: " : String).data := rfl
          rw [this]
          rfl
        exact string_ne_of_head hs halt (by decide)
  | _ => decide

/-! ## Remote-client helper lemmas -/

/-- A valid key reaches the network request and the classification. -/
theorem fetchNotesRaw_valid (key : String) (resp : RUrlResponse)
    (h1 : (jsTrim key == "") = false) (h2 : ¬ key.length < 32) :
    fetchNotesRaw key resp = (true, classifyResponse resp) := by
  unfold fetchNotesRaw
  rw [if_neg (by simp [h1]), if_neg h2]

theorem classify_auth (resp : RUrlResponse)
    (h : resp.status = 401 ∨ resp.status = 403) :
    classifyResponse resp = .error .auth := by
  rcases h with h | h <;> simp [classifyResponse, h]

theorem classify_endpoint (resp : RUrlResponse) (h : resp.status = 404) :
    classifyResponse resp = .error .endpoint := by
  simp [classifyResponse, h]

theorem classify_server (resp : RUrlResponse) (h : 500 ≤ resp.status) :
    classifyResponse resp = .error .server := by
  have e1 : (resp.status == 401) = false := by simp; omega
  have e2 : (resp.status == 403) = false := by simp; omega
  have e3 : (resp.status == 404) = false := by simp; omega
  simp [classifyResponse, e1, e2, e3, h]

theorem classify_unexpected (resp : RUrlResponse)
    (h1 : resp.status ≠ 401) (h2 : resp.status ≠ 403) (h3 : resp.status ≠ 404)
    (h4 : resp.status < 500) (h5 : resp.status ≠ 200) :
    classifyResponse resp = .error (.unexpected resp.status) := by
  have e1 : (resp.status == 401) = false := by simp [h1]
  have e2 : (resp.status == 403) = false := by simp [h2]
  have e3 : (resp.status == 404) = false := by simp [h3]
  have e4 : ¬ 500 ≤ resp.status := by omega
  have e5 : (resp.status != 200) = true := by simp [h5]
  simp [classifyResponse, e1, e2, e3, e4, e5]

theorem classify_malformed (resp : RUrlResponse) (h : resp.status = 200)
    (hj : ∀ notes, resp.json ≠ some (some notes)) :
    classifyResponse resp = .error .malformed := by
  have e1 : (resp.status == 401) = false := by simp [h]
  have e2 : (resp.status == 403) = false := by simp [h]
  have e3 : (resp.status == 404) = false := by simp [h]
  have e4 : ¬ 500 ≤ resp.status := by omega
  have e5 : (resp.status != 200) = false := by simp [h]
  simp only [classifyResponse, e1, e2, e3, e4, e5, Bool.or_self, Bool.false_eq_true,
    if_false, if_neg e4, Bool.or_false]

/-- Sanitizer helper: the zip of a mapped list with the original relates
positionally corresponding characters. -/
theorem zip_map_sanChar :
    ∀ (l : List Char), ∀ pr ∈ (l.map sanChar).zip l, pr.1 = sanChar pr.2 := by
  intro l
  induction l with
  | nil => intro pr h; simp at h
  | cons c t ih =>
    intro pr h
    simp only [List.map_cons, List.zip_cons_cons, List.mem_cons] at h
    rcases h with h | h
    · rw [h]
    · exact ih pr h

/-! ## Vault lemmas -/

theorem find?_map_set_self (p : String) (e : VEntry) :
    ∀ (l : List (String × VEntry)),
      (l.find? (fun en => en.1 == p)).isSome = true →
      (l.map (fun en => if en.1 == p then (p, e) else en)).find?
          (fun en => en.1 == p) = some (p, e) := by
  intro l h
  induction l with
  | nil => simp at h
  | cons a t ih =>
    by_cases ha : (a.1 == p) = true
    · simp only [List.map_cons, ha, if_true]
      rw [List.find?_cons_of_pos _ (by simp)]
    · simp only [List.map_cons, ha, Bool.false_eq_true, if_false]
      rw [List.find?_cons_of_neg _ (by simp [ha])]
      apply ih
      rw [List.find?_cons_of_neg _ (by simp [ha])] at h
      exact h

theorem find?_map_set_other (p : String) (e : VEntry) (q : String)
    (hq : (p == q) = false) :
    ∀ (l : List (String × VEntry)),
      (l.map (fun en => if en.1 == p then (p, e) else en)).find?
          (fun en => en.1 == q) = l.find? (fun en => en.1 == q) := by
  intro l
  induction l with
  | nil => rfl
  | cons a t ih =>
    by_cases ha : (a.1 == p) = true
    · have ha' : a.1 = p := by simpa using ha
      simp only [List.map_cons, ha, if_true]
      rw [List.find?_cons_of_neg _ (by simp [hq]),
        List.find?_cons_of_neg _ (by simp [ha', hq])]
      exact ih
    · simp only [List.map_cons, ha, Bool.false_eq_true, if_false]
      by_cases haq : (a.1 == q) = true
      · rw [@List.find?_cons_of_pos _ (fun en => en.1 == q) a _ haq,
          @List.find?_cons_of_pos _ (fun en => en.1 == q) a _ haq]
      · rw [@List.find?_cons_of_neg _ (fun en => en.1 == q) a _ (by simp [haq]),
          @List.find?_cons_of_neg _ (fun en => en.1 == q) a _ (by simp [haq])]
        exact ih

theorem Vault.get?_some_pathExists (v : Vault) (p : String) (x : VEntry)
    (h : v.get? p = some x) : v.pathExists p = true := by
  unfold Vault.get? at h
  unfold Vault.pathExists
  cases hf : v.entries.find? (fun en => en.1 == p) with
  | none => rw [hf] at h; exact Option.noConfusion h
  | some y => rfl

theorem Vault.get?_set_self (v : Vault) (p : String) (e : VEntry) :
    (v.set p e).get? p = some e := by
  unfold Vault.set
  by_cases hex : v.pathExists p = true
  · rw [if_pos hex]
    show ((v.entries.map (fun en => if en.1 == p then (p, e) else en)).find?
      (fun en => en.1 == p)).map (·.2) = some e
    unfold Vault.pathExists at hex
    rw [find?_map_set_self p e v.entries hex]
    rfl
  · rw [if_neg hex]
    show ((v.entries ++ [(p, e)]).find? (fun en => en.1 == p)).map (·.2) = some e
    rw [List.find?_append]
    have hnone : v.entries.find? (fun en => en.1 == p) = none := by
      cases hf : v.entries.find? (fun en => en.1 == p) with
      | none => rfl
      | some x =>
        exact absurd (by unfold Vault.pathExists; rw [hf]; rfl) hex
    rw [hnone, List.find?_cons_of_pos _ (by simp)]
    rfl

theorem Vault.get?_set_other (v : Vault) (p : String) (e : VEntry) (q : String)
    (hq : q ≠ p) : (v.set p e).get? q = v.get? q := by
  have hpq : (p == q) = false := by
    simp only [beq_eq_false_iff_ne]
    exact fun he => hq he.symm
  unfold Vault.set
  by_cases hex : v.pathExists p = true
  · rw [if_pos hex]
    show ((v.entries.map (fun en => if en.1 == p then (p, e) else en)).find?
      (fun en => en.1 == q)).map (·.2) = v.get? q
    rw [find?_map_set_other p e q hpq v.entries]
    rfl
  · rw [if_neg hex]
    show ((v.entries ++ [(p, e)]).find? (fun en => en.1 == q)).map (·.2) = v.get? q
    rw [List.find?_append, List.find?_cons_of_neg _ (by simp [hpq]), List.find?_nil]
    show ((v.entries.find? (fun en => en.1 == q)).or none).map (·.2) = v.get? q
    rw [Option.or_none]
    rfl

theorem Vault.length_set_of_exists (v : Vault) (p : String) (e : VEntry)
    (hex : v.pathExists p = true) :
    (v.set p e).entries.length = v.entries.length := by
  unfold Vault.set
  rw [if_pos hex]
  simp

/-- A successful fetch implies a nonempty API key (the empty key would have
failed validation before the request). -/
theorem apiKey_ok_nonempty (key : String) (resp : RUrlResponse)
    (notes : List KlarityNote) (h : (fetchNotes key resp).2 = .ok notes) :
    (key == "") = false := by
  cases hek : key == "" with
  | false => rfl
  | true =>
    have he : key = "" := by simpa using hek
    rw [he] at h
    have hempty : (fetchNotes "" resp).2 =
        .error (catchWrap (FetchErr.emptyKey).message) := rfl
    exact Except.noConfusion (hempty.symm.trans h)

/-- The five template patterns do not overlap each other's interiors: no
pattern matches starting strictly inside another pattern's occurrence. -/
theorem tokensOf_hpp (note : KlarityNote) :
    ∀ q ∈ tokensOf note, ∀ q' ∈ tokensOf note, ∀ j, j < q'.pat.length → 0 < j →
      isPre q.pat (q'.pat.drop j) = false ∧
      isPre (q'.pat.drop j) q.pat = false := by
  intro q hq q' hq'
  simp only [tokensOf, List.mem_cons, List.not_mem_nil, or_false] at hq hq'
  rcases hq with rfl | rfl | rfl | rfl | rfl <;>
    rcases hq' with rfl | rfl | rfl | rfl | rfl <;>
    dsimp only [Tok.pat] <;> decide

/-- No template pattern is a prefix of a different template pattern. -/
theorem tokensOf_hnp (note : KlarityNote) :
    ∀ q ∈ tokensOf note, ∀ q' ∈ tokensOf note,
      isPre q.pat q'.pat = true → q = q' := by
  intro q hq q' hq'
  simp only [tokensOf, List.mem_cons, List.not_mem_nil, or_false] at hq hq'
  rcases hq with rfl | rfl | rfl | rfl | rfl <;>
    rcases hq' with rfl | rfl | rfl | rfl | rfl <;>
    intro h <;>
    first
      | rfl
      | (dsimp only [Tok.pat] at h; exact absurd h (by decide))

/-! ## Claim theorems -/

/-- C5 (amended): rendering applies the five global substitutions
sequentially in the fixed source order `id`, `title`, `createdAt`,
`updatedAt`, `transcription`; the result equals the simultaneous
substitution of all five tokens whenever the field values cannot combine
with surrounding text into a token and carry no active dollar escape — in
particular whenever every field value is nonempty, contains no opening
brace and no dollar sign, and is not a fragment of any token.  (When a
field value itself contains one of the tokens the two disagree: see the
counterexample.) -/
theorem formatNote_eq_simulRender_of_safe (st : KlarityPluginSettings)
    (note : KlarityNote) (hsafe : SafeVals note) :
    formatNote st note = simulRender st note := by
  obtain ⟨h0, hhd, hds, hvp⟩ := hsafe
  have h := simul_seq_chain (tokensOf note) h0 hhd (tokensOf_hpp note) hvp
    (tokensOf_hnp note) st.noteTemplate.data
  have hseq : formatNote st note =
      ⟨seqReplaceD (tokensOf note) st.noteTemplate.data⟩ := rfl
  rw [hseq, seqReplaceD_eq_seqReplace (tokensOf note) hds st.noteTemplate.data,
    ← h]
  rfl

/-- Witness for the amended C5 at a note with numeric field values and the
default template. -/
theorem formatNote_eq_simulRender_of_safe_witness :
    SafeVals noteSafe ∧
    formatNote DEFAULT_SETTINGS noteSafe = simulRender DEFAULT_SETTINGS noteSafe :=
  ⟨by decide, formatNote_eq_simulRender_of_safe DEFAULT_SETTINGS noteSafe (by decide)⟩

/-- C5 counterexample: with the template `{{id}}` and a note whose `id`
value is the literal token `{{title}}` (title `B`), the sequential renderer
produces `B` — the inserted value is rewritten by the later substitution —
while the simultaneous substitution of the claim produces `{{title}}`;
the claimed order-independence fails when a field value contains a token. -/
theorem formatNote_ne_simulRender :
    formatNote stCx noteCx ≠ simulRender stCx noteCx := by
  decide

/-- C3: `fetchNotes` classifies the HTTP response in a fixed order with
first match winning — 401/403 to the authentication error, 404 to the
endpoint error, status ≥ 500 to the server error, any other non-200 status
to the unexpected-status error carrying the status, and a 200 response
whose body is not an object with an array under the `notes` key to the
malformed-response error — and every error kind carries a nonempty,
directly displayable message, before and after the catch-block rewrap. -/
theorem fetchNotes_classification_order (key : String) (resp : RUrlResponse)
    (h1 : (jsTrim key == "") = false) (h2 : ¬ key.length < 32) :
    ((resp.status = 401 ∨ resp.status = 403) →
      (fetchNotesRaw key resp).2 = .error .auth) ∧
    (resp.status = 404 → (fetchNotesRaw key resp).2 = .error .endpoint) ∧
    (500 ≤ resp.status → (fetchNotesRaw key resp).2 = .error .server) ∧
    (resp.status ≠ 401 → resp.status ≠ 403 → resp.status ≠ 404 →
      resp.status < 500 → resp.status ≠ 200 →
      (fetchNotesRaw key resp).2 = .error (.unexpected resp.status)) ∧
    (resp.status = 200 → (∀ notes, resp.json ≠ some (some notes)) →
      (fetchNotesRaw key resp).2 = .error .malformed) ∧
    (∀ e : FetchErr, e.message ≠ "" ∧ catchWrap e.message ≠ "") := by
  have hraw := fetchNotesRaw_valid key resp h1 h2
  refine ⟨?_, ?_, ?_, ?_, ?_, ?_⟩
  · intro h; rw [hraw]; exact classify_auth resp h
  · intro h; rw [hraw]; exact classify_endpoint resp h
  · intro h; rw [hraw]; exact classify_server resp h
  · intro a b c d e; rw [hraw]; exact classify_unexpected resp a b c d e
  · intro h hj; rw [hraw]; exact classify_malformed resp h hj
  · intro e; exact ⟨message_ne_empty e, catchWrap_ne_empty e.message (message_ne_empty e)⟩

/-- Witness for C3: with a valid key, an HTTP 500 response is classified as
the server error. -/
theorem fetchNotes_classification_order_witness :
    (fetchNotesRaw validKey ⟨500, none⟩).2 = .error .server :=
  (fetchNotes_classification_order validKey ⟨500, none⟩ (by decide) (by decide)).2.2.1
    (by decide)

/-- C4: an API key that is empty or shorter than 32 characters makes
`fetchNotes` fail with a configuration error before any network request is
issued (the request flag stays `false`). -/
theorem fetchNotes_short_key_config_error (key : String) (resp : RUrlResponse)
    (h : key.length < 32) :
    (fetchNotesRaw key resp).1 = false ∧
    ∃ e, (fetchNotesRaw key resp).2 = .error e ∧ e.isConfig = true := by
  unfold fetchNotesRaw
  by_cases ht : (jsTrim key == "") = true
  · rw [if_pos ht]
    exact ⟨rfl, .emptyKey, rfl, rfl⟩
  · rw [if_neg ht, if_pos h]
    exact ⟨rfl, .shortKey, rfl, rfl⟩

/-- Witness for C4 at the 5-character key "short". -/
theorem fetchNotes_short_key_config_error_witness :
    (fetchNotesRaw "short" ⟨200, some (some [])⟩).1 = false ∧
    ∃ e, (fetchNotesRaw "short" ⟨200, some (some [])⟩).2 = .error e ∧
      e.isConfig = true :=
  fetchNotes_short_key_config_error "short" ⟨200, some (some [])⟩ (by decide)

/-- C10: a 401 or 403 response makes `fetchNotes` throw exactly the
"Authentication required. Please uncomment the Authorization header in the
plugin code." message, and the alternative "Authentication failed. Please
verify your API key is correct in settings." message is unreachable for
every input, because the guarding `isCommented` flag is hardcoded `true`. -/
theorem fetchNotes_auth_message_fixed (key : String) (resp : RUrlResponse)
    (h1 : (jsTrim key == "") = false) (h2 : ¬ key.length < 32)
    (hst : resp.status = 401 ∨ resp.status = 403) :
    (fetchNotes key resp).2 =
      .error "Authentication required. Please uncomment the Authorization header in the plugin code." ∧
    ∀ (key2 : String) (resp2 : RUrlResponse) (msg : String),
      (fetchNotes key2 resp2).2 = .error msg →
      msg ≠ "Authentication failed. Please verify your API key is correct in settings." := by
  constructor
  · have hraw := fetchNotesRaw_valid key resp h1 h2
    have hcls := classify_auth resp hst
    have : (fetchNotes key resp).2 = .error (catchWrap (FetchErr.auth).message) := by
      simp only [fetchNotes, hraw, hcls]
    rw [this]
    rfl
  · intro key2 resp2 msg h
    cases hr2 : (fetchNotesRaw key2 resp2).2 with
    | ok ns =>
      simp only [fetchNotes, hr2] at h
      exact Except.noConfusion h
    | error e =>
      simp only [fetchNotes, hr2, Except.error.injEq] at h
      rw [← h]
      exact catchWrap_ne_alt e

/-- Witness for C10 at a valid key and a 401 response. -/
theorem fetchNotes_auth_message_fixed_witness :
    (fetchNotes validKey ⟨401, none⟩).2 =
      .error "Authentication required. Please uncomment the Authorization header in the plugin code." :=
  (fetchNotes_auth_message_fixed validKey ⟨401, none⟩ (by decide) (by decide)
    (Or.inl rfl)).1

/-- C7: rendering the spec's example note through the default template
yields content containing the front-matter block with `id: 1`,
`created: 2024-01-01T00:00:00Z`, `updated: 2024-01-01T00:00:00Z`, the
heading `# A`, and a transcription section containing `x`. -/
theorem defaultTemplate_render_contains :
    includesStr (formatNote DEFAULT_SETTINGS noteA)
      "---\nid: 1\ncreated: 2024-01-01T00:00:00Z\nupdated: 2024-01-01T00:00:00Z\n---" = true ∧
    includesStr (formatNote DEFAULT_SETTINGS noteA) "# A" = true ∧
    includesStr (formatNote DEFAULT_SETTINGS noteA) "## Transcription\nx" = true := by
  decide

/-- C6: the sanitizer preserves length, its output contains no character of
the forbidden class, and at every position the output character is the
input character when that is not forbidden, and a hyphen when it is. -/
theorem sanitizeFilename_positional (title : String) :
    (sanitizeFilename title).length = title.length ∧
    (∀ c ∈ (sanitizeFilename title).data, invalidFileChar c = false) ∧
    (∀ pr ∈ ((sanitizeFilename title).data.zip title.data),
      pr.1 = if invalidFileChar pr.2 then '-' else pr.2) := by
  refine ⟨?_, ?_, ?_⟩
  · show (title.data.map sanChar).length = title.data.length
    simp
  · intro c hc
    have hc' : c ∈ title.data.map sanChar := hc
    rw [List.mem_map] at hc'
    obtain ⟨a, _, rfl⟩ := hc'
    by_cases hf : invalidFileChar a = true
    · have : sanChar a = '-' := by simp [sanChar, hf]
      rw [this]
      decide
    · have ha : invalidFileChar a = false := by simpa using hf
      have : sanChar a = a := by simp [sanChar, ha]
      rw [this]
      exact ha
  · intro pr h
    rw [zip_map_sanChar title.data pr h]
    rfl

/-- Witness for C6 at the title "a/b": the slash maps to a hyphen at its
position. -/
theorem sanitizeFilename_positional_witness :
    sanitizeFilename "a/b" = "a-b" ∧
    ('-' : Char) = if invalidFileChar '/' then '-' else '/' :=
  ⟨by decide, (sanitizeFilename_positional "a/b").2.2 ('-', '/') (by decide)⟩

/-- Loop invariant of the per-note loop of `syncNotes`: every note gets an
outcome (processed or failed, never both), and failure notices and log
entries grow in lockstep. -/
theorem syncLoop_inv (st : KlarityPluginSettings) :
    ∀ (notes : List KlarityNote) (v0 : Vault) (p0 : Nat) (f0 l0 : List String),
      (notes.foldl (syncStep st) (v0, p0, f0, l0)).2.1 +
          (notes.foldl (syncStep st) (v0, p0, f0, l0)).2.2.1.length =
        p0 + f0.length + notes.length ∧
      (notes.foldl (syncStep st) (v0, p0, f0, l0)).2.2.2.length + f0.length =
        (notes.foldl (syncStep st) (v0, p0, f0, l0)).2.2.1.length + l0.length := by
  intro notes
  induction notes with
  | nil =>
    intro v0 p0 f0 l0
    constructor
    · simp
    · simp [Nat.add_comm]
  | cons n ns ih =>
    intro v0 p0 f0 l0
    rcases hc : createOrUpdateNote st v0 n with ⟨v2, e⟩
    cases e with
    | none =>
      have hstep : syncStep st (v0, p0, f0, l0) n = (v2, p0 + 1, f0, l0) := by
        simp only [syncStep, hc]
      rw [List.foldl_cons, hstep]
      have := ih v2 (p0 + 1) f0 l0
      constructor
      · rw [this.1]
        simp [List.length_cons]
        omega
      · exact this.2
    | some err =>
      have hstep : syncStep st (v0, p0, f0, l0) n =
          (v2, p0,
            f0 ++ ["Failed to save note \"" ++ n.title ++ "\". Check console for details."],
            l0 ++ ["Error processing note \"" ++ n.title ++ "\""]) := by
        simp only [syncStep, hc]
      rw [List.foldl_cons, hstep]
      have := ih v2 p0
        (f0 ++ ["Failed to save note \"" ++ n.title ++ "\". Check console for details."])
        (l0 ++ ["Error processing note \"" ++ n.title ++ "\""])
      constructor
      · rw [this.1]
        simp [List.length_append, List.length_cons]
        omega
      · have h2 := this.2
        simp only [List.length_append, List.length_singleton] at h2 ⊢
        omega

/-- C2: when the fetch succeeds, `syncNotes` runs the whole loop — every
note is either processed or recorded as a per-note failure with a log entry
and a notice — and afterwards it updates `lastSyncTime` to the current
timestamp and persists the settings, regardless of how many per-note
failures occurred. -/
theorem syncNotes_partial_failure_still_persists (st : KlarityPluginSettings)
    (resp : RUrlResponse) (v : Vault) (now : String) (flag : Bool)
    (notes : List KlarityNote)
    (h : (fetchNotes st.apiKey resp).2 = .ok notes) :
    (syncNotes st resp v now flag).settings = { st with lastSyncTime := now } ∧
    (syncNotes st resp v now flag).persisted = true ∧
    (syncNotes st resp v now flag).processed +
        (syncNotes st resp v now flag).failedNotes.length = notes.length ∧
    (syncNotes st resp v now flag).logs.length =
        (syncNotes st resp v now flag).failedNotes.length ∧
    (∀ m ∈ (syncNotes st resp v now flag).failedNotes,
      m ∈ (syncNotes st resp v now flag).notices) := by
  have hk : (st.apiKey == "") = false := by
    cases hek : st.apiKey == "" with
    | false => rfl
    | true =>
      have he : st.apiKey = "" := by simpa using hek
      rw [he] at h
      have hempty : (fetchNotes "" resp).2 =
          .error (catchWrap (FetchErr.emptyKey).message) := rfl
      exact Except.noConfusion (hempty.symm.trans h)
  have hinv := syncLoop_inv st notes v 0 [] []
  have ho : syncNotes st resp v now flag =
      { settings := { st with lastSyncTime := now },
        vault := (notes.foldl (syncStep st) (v, 0, [], [])).1,
        processed := (notes.foldl (syncStep st) (v, 0, [], [])).2.1,
        total := notes.length,
        failedNotes := (notes.foldl (syncStep st) (v, 0, [], [])).2.2.1,
        logs := (notes.foldl (syncStep st) (v, 0, [], [])).2.2.2,
        notices := (if flag then ["Starting Klarity sync..."] else []) ++
          (notes.foldl (syncStep st) (v, 0, [], [])).2.2.1 ++
          (if flag then
            ["Synced " ++ toString (notes.foldl (syncStep st) (v, 0, [], [])).2.1 ++
              "/" ++ toString notes.length ++ " notes from Klarity"]
          else []),
        persisted := true } := by
    simp only [syncNotes, hk, Bool.false_eq_true, if_false, h]
  rw [ho]
  refine ⟨rfl, rfl, ?_, ?_, ?_⟩
  · have := hinv.1
    simpa using this
  · have := hinv.2
    simpa using this
  · intro m hm
    simp only [List.mem_append]
    exact Or.inl (Or.inr hm)

/-- Witness for C2: two notes with colliding titles, the vault write for
the shared path failing, still give a persisted cycle with the new
timestamp and one failure per note. -/
theorem syncNotes_partial_failure_still_persists_witness :
    ((syncNotes stOk ⟨200, some (some [noteA])⟩
        { entries := [("Klarity", .folder)], failing := ["Klarity/A.md"] }
        "2025-06-01T00:00:00Z" true).settings.lastSyncTime = "2025-06-01T00:00:00Z") ∧
    ((syncNotes stOk ⟨200, some (some [noteA])⟩
        { entries := [("Klarity", .folder)], failing := ["Klarity/A.md"] }
        "2025-06-01T00:00:00Z" true).persisted = true) ∧
    ((syncNotes stOk ⟨200, some (some [noteA])⟩
        { entries := [("Klarity", .folder)], failing := ["Klarity/A.md"] }
        "2025-06-01T00:00:00Z" true).processed +
      (syncNotes stOk ⟨200, some (some [noteA])⟩
        { entries := [("Klarity", .folder)], failing := ["Klarity/A.md"] }
        "2025-06-01T00:00:00Z" true).failedNotes.length = 1) := by
  have h := syncNotes_partial_failure_still_persists stOk ⟨200, some (some [noteA])⟩
    { entries := [("Klarity", .folder)], failing := ["Klarity/A.md"] }
    "2025-06-01T00:00:00Z" true [noteA] (by rfl)
  exact ⟨by rw [h.1], h.2.1, h.2.2.1⟩

/-- C1: when the fetch fails for any classified reason, `syncNotes`
terminates the cycle with the vault untouched (no file written) and the
settings — in particular `lastSyncTime` — unchanged and not persisted. -/
theorem syncNotes_fetch_failure_aborts (st : KlarityPluginSettings)
    (resp : RUrlResponse) (v : Vault) (now : String) (flag : Bool) (msg : String)
    (h : (fetchNotes st.apiKey resp).2 = .error msg) :
    (syncNotes st resp v now flag).vault = v ∧
    (syncNotes st resp v now flag).settings = st ∧
    (syncNotes st resp v now flag).persisted = false := by
  by_cases hk : (st.apiKey == "") = true
  · simp [syncNotes, hk]
  · have hk' : (st.apiKey == "") = false := by simpa using hk
    simp [syncNotes, hk', h]

/-- Witness for C1: a server failure on an HTTP 500 response leaves the
empty vault and the settings as they were. -/
theorem syncNotes_fetch_failure_aborts_witness :
    (syncNotes stOk ⟨500, none⟩ vault0 "2025-06-01T00:00:00Z" true).vault = vault0 ∧
    (syncNotes stOk ⟨500, none⟩ vault0 "2025-06-01T00:00:00Z" true).settings = stOk ∧
    (syncNotes stOk ⟨500, none⟩ vault0 "2025-06-01T00:00:00Z" true).persisted = false :=
  syncNotes_fetch_failure_aborts stOk ⟨500, none⟩ vault0 "2025-06-01T00:00:00Z" true
    "Failed to sync with Klarity: Klarity server error. Please try again later or contact support if the issue persists."
    (by rfl)

/-- C8: `createOrUpdateNote` writes the rendered content at the computed
path `{syncDirectory}/{sanitize(title)}.md`.  When a file already exists
there, its content is overwritten in place — no entry is added, removed or
moved, every other path is untouched; when no entry exists there, a new
file with the rendered content is created, again leaving every other path
untouched. -/
theorem createOrUpdateNote_overwrites_or_creates (st : KlarityPluginSettings)
    (v : Vault) (note : KlarityNote)
    (hfold : v.pathExists (folderPathOf st) = true)
    (hfail : v.failing.contains (filePathOf st note) = false) :
    (∀ c0, v.get? (filePathOf st note) = some (.file c0) →
      (createOrUpdateNote st v note).2 = none ∧
      (createOrUpdateNote st v note).1.get? (filePathOf st note) =
        some (.file (formatNote st note)) ∧
      (createOrUpdateNote st v note).1.entries.length = v.entries.length ∧
      ∀ q, q ≠ filePathOf st note →
        (createOrUpdateNote st v note).1.get? q = v.get? q) ∧
    (v.pathExists (filePathOf st note) = false →
      (createOrUpdateNote st v note).2 = none ∧
      (createOrUpdateNote st v note).1.get? (filePathOf st note) =
        some (.file (formatNote st note)) ∧
      ∀ q, q ≠ filePathOf st note →
        (createOrUpdateNote st v note).1.get? q = v.get? q) := by
  have hfolder : (if !(v.pathExists (folderPathOf st)) then
      v.createFolder (folderPathOf st) else .ok v) = .ok v := by
    rw [hfold]
    rfl
  constructor
  · intro c0 hget
    have hfp : v.pathExists (filePathOf st note) = true :=
      Vault.get?_some_pathExists v _ _ hget
    have hres : createOrUpdateNote st v note =
        (v.set (filePathOf st note) (.file (formatNote st note)), none) := by
      unfold createOrUpdateNote
      dsimp only
      rw [hfolder]
      simp only [hfp, if_true, hget]
      unfold Vault.modify
      rw [hfail]
      rfl
    rw [hres]
    exact ⟨rfl, Vault.get?_set_self v _ _,
      Vault.length_set_of_exists v _ _ hfp,
      fun q hq => Vault.get?_set_other v _ _ q hq⟩
  · intro hno
    have hres : createOrUpdateNote st v note =
        (v.set (filePathOf st note) (.file (formatNote st note)), none) := by
      unfold createOrUpdateNote
      dsimp only
      rw [hfolder]
      simp only [hno, Bool.false_eq_true, if_false]
      unfold Vault.create
      rw [hfail]
      rfl
    rw [hres]
    exact ⟨rfl, Vault.get?_set_self v _ _,
      fun q hq => Vault.get?_set_other v _ _ q hq⟩

/-- Witness for C8: overwriting the existing file `Klarity/A.md` keeps the
entry count and replaces the content with the rendered note. -/
theorem createOrUpdateNote_overwrites_or_creates_witness :
    (createOrUpdateNote stOk vaultA noteA).2 = none ∧
    (createOrUpdateNote stOk vaultA noteA).1.get? (filePathOf stOk noteA) =
      some (.file (formatNote stOk noteA)) ∧
    (createOrUpdateNote stOk vaultA noteA).1.entries.length =
      vaultA.entries.length :=
  have h := (createOrUpdateNote_overwrites_or_creates stOk vaultA noteA
    (by decide) (by decide)).1 "old" (by decide)
  ⟨h.1, h.2.1, h.2.2.1⟩

/-- C9: when the entity at the computed path exists but is not a regular
file (for example a folder named `<sanitizedTitle>.md`), `createOrUpdateNote`
completes without error and without writing anything, and a `syncNotes`
cycle whose fetch yields exactly that note counts it as processed with no
failure notice. -/
theorem createOrUpdateNote_folder_collision_skipped (st : KlarityPluginSettings)
    (v : Vault) (note : KlarityNote) (resp : RUrlResponse) (now : String)
    (flag : Bool)
    (hfold : v.pathExists (folderPathOf st) = true)
    (hfp : v.get? (filePathOf st note) = some .folder) :
    createOrUpdateNote st v note = (v, none) ∧
    ((fetchNotes st.apiKey resp).2 = .ok [note] →
      (syncNotes st resp v now flag).processed = 1 ∧
      (syncNotes st resp v now flag).failedNotes = []) := by
  have hex : v.pathExists (filePathOf st note) = true :=
    Vault.get?_some_pathExists v _ _ hfp
  have hmain : createOrUpdateNote st v note = (v, none) := by
    unfold createOrUpdateNote
    dsimp only
    rw [hfold]
    simp only [Bool.not_true, Bool.false_eq_true, if_false, hex, if_true, hfp]
  refine ⟨hmain, fun hok => ?_⟩
  have hk : (st.apiKey == "") = false := apiKey_ok_nonempty st.apiKey resp [note] hok
  have hstep : syncStep st (v, 0, [], []) note = (v, 1, [], []) := by
    simp only [syncStep, hmain]
  constructor
  · simp only [syncNotes, hk, Bool.false_eq_true, if_false, hok,
      List.foldl_cons, hstep, List.foldl_nil]
  · simp only [syncNotes, hk, Bool.false_eq_true, if_false, hok,
      List.foldl_cons, hstep, List.foldl_nil]

/-- Witness for C9: a folder at `Klarity/A.md` is skipped without error and
the cycle reports the note as processed. -/
theorem createOrUpdateNote_folder_collision_skipped_witness :
    createOrUpdateNote stOk vaultB noteA = (vaultB, none) ∧
    (syncNotes stOk ⟨200, some (some [noteA])⟩ vaultB "2025-06-01T00:00:00Z"
      true).processed = 1 :=
  have h := createOrUpdateNote_folder_collision_skipped stOk vaultB noteA
    ⟨200, some (some [noteA])⟩ "2025-06-01T00:00:00Z" true (by decide) (by decide)
  ⟨h.1, (h.2 (by rfl)).1⟩

end KlaritySync
